import Mathlib

/-!
# Verification of the lunch-app recommendation engine (app.py)

Shallow embedding of the recommendation subsystem of the Flask backend
(`app.py`): the availability resolver, the compatibility / pattern scoring
functions, the greedy group assembler, and the in-process recommendation
cache with its generation and lookup paths.

Modelling conventions, fixed once for the whole file:

* Calendar dates are modelled as natural day numbers counted from an epoch
  Monday.  The source stores ISO `YYYY-MM-DD` strings; equality and
  lexicographic order of such strings coincide with equality and order of
  day numbers, `timedelta` addition corresponds to `+`, `strftime` to the
  identity, and Python's `date.weekday()` (Monday = 0) to `d % 7`.
* The SQLAlchemy session is modelled as an immutable snapshot `DB` holding
  the rows of the tables the engine reads (`User`, `Party`, `PartyMember`,
  `PersonalSchedule`, `UserPreference`).
* Nullable string columns are `Option String`; Python truthiness of such a
  value (`if user1.main_dish_genre:`) is `truthy` below (`None` and `""`
  are falsy).
* `random.uniform(0, 50)` draws are modelled by an oracle
  `rand : String → String → Nat → ℚ` giving the jitter drawn for a
  (requester, candidate, date) triple; no claim depends on its range.
* The module-global pair `RECOMMENDATION_CACHE` / `CACHE_GENERATION_DATE`
  is the state `CacheState`; the Python dict keyed by the f-string
  `"{employee_id}_{target_date_str}"` is an association list keyed by the
  pair (employee id, date), which is faithful because ISO date strings
  contain no underscore, so the f-string key determines the pair.
* `get_seoul_today()` (wall clock) is passed explicitly as `today`.
-/

namespace LunchApp

/-- Row of the `users` table (`auth/models.py`), restricted to the columns
the recommendation engine reads. -/
structure DBUser where
  employee_id : String
  nickname : Option String
  gender : Option String
  age_group : Option String
  main_dish_genre : Option String
deriving DecidableEq, Repr

/-- Row of the `party` table (`app.py` line 640), restricted to the columns
the recommendation engine reads. -/
structure Party where
  id : Nat
  host_employee_id : String
  party_date : Nat
deriving DecidableEq, Repr

/-- Row of the `party_member` table (`app.py` line 708). -/
structure PartyMember where
  party_id : Nat
  employee_id : String
deriving DecidableEq, Repr

/-- Row of the `personal_schedule` table (`app.py` line 725). -/
structure PersonalSchedule where
  employee_id : String
  schedule_date : Nat
deriving DecidableEq, Repr

/-- Row of the `user_preference` table, as read by `get_user_preference`. -/
structure UserPreference where
  user_id : String
  preference_type : String
  preference_value : String
deriving DecidableEq, Repr

/-- Snapshot of the database tables read by the engine. -/
structure DB where
  users : List DBUser
  parties : List Party
  partyMembers : List PartyMember
  schedules : List PersonalSchedule
  preferences : List UserPreference
deriving DecidableEq, Repr

/-- Python truthiness of a nullable string column: `None` and `""` are
falsy, every other string truthy. -/
def truthy : Option String → Bool
  | none => false
  | some s => !(s == "")

/-- Spec-side reading of "the tag is non-empty": the column holds some
non-empty string. -/
def nonemptyTag (o : Option String) : Prop := ∃ s, o = some s ∧ s ≠ ""

instance (o : Option String) : Decidable (nonemptyTag o) :=
  decidable_of_iff (truthy o = true) (by cases o <;> simp [truthy, nonemptyTag])

/-- `calculate_compatibility_score_cached` (`app.py` lines 346-366):
+30 for matching truthy cuisine genres, +20 for matching truthy age
groups, +15 for differing truthy genders. -/
def calculate_compatibility_score_cached (user1 user2 : DBUser) : Nat :=
  let score : Nat := 0
  let score := if truthy user1.main_dish_genre && truthy user2.main_dish_genre then
      (if user1.main_dish_genre == user2.main_dish_genre then score + 30 else score)
    else score
  let score := if truthy user1.age_group && truthy user2.age_group then
      (if user1.age_group == user2.age_group then score + 20 else score)
    else score
  let score := if truthy user1.gender && truthy user2.gender then
      (if user1.gender != user2.gender then score + 15 else score)
    else score
  score

/-- `PartyMember.query.filter_by(employee_id=...).count()`: the number of
party-membership rows of one user (used by the pattern score). -/
def partyMemberCount (db : DB) (eid : String) : Nat :=
  (db.partyMembers.filter fun m => m.employee_id == eid).length

/-- Absolute difference of the two users' party-participation counts
(`activity_diff` in the source). -/
def activityDiff (db : DB) (user1 user2 : DBUser) : Nat :=
  ((partyMemberCount db user1.employee_id : Int)
    - (partyMemberCount db user2.employee_id : Int)).natAbs

/-- `calculate_pattern_score_cached` (`app.py` lines 368-384): 20 points if
the participation counts differ by at most 2, 10 if by at most 5, else 0. -/
def calculate_pattern_score_cached (db : DB) (user1 user2 : DBUser) : Nat :=
  let activity_diff := activityDiff db user1 user2
  if activity_diff ≤ 2 then 20
  else if activity_diff ≤ 5 then 10
  else 0

/-- The set `party_user_ids` built by `get_available_users_for_date`
(`app.py` lines 259-282): hosts and registered members of every party
scheduled on the given date. -/
def partyUsersOn (db : DB) (d : Nat) : Finset String :=
  ((db.parties.filter fun p => p.party_date == d).flatMap fun p =>
    p.host_employee_id ::
      ((db.partyMembers.filter fun m => m.party_id == p.id).map
        PartyMember.employee_id)).toFinset

/-- The set `schedule_user_ids` of the same function: owners of a personal
schedule entry on the given date. -/
def scheduleUsersOn (db : DB) (d : Nat) : Finset String :=
  ((db.schedules.filter fun s => s.schedule_date == d).map
    PersonalSchedule.employee_id).toFinset

/-- The set `all_user_ids` of the same function. -/
def allUserIds (db : DB) : Finset String :=
  (db.users.map DBUser.employee_id).toFinset

/-- `get_available_users_for_date` (`app.py` lines 259-282). -/
def get_available_users_for_date (db : DB) (d : Nat) : Finset String :=
  (allUserIds db \ partyUsersOn db d) \ scheduleUsersOn db d

/-- `range(a, b)` of Python: the integers from `a` (inclusive) to `b`
(exclusive); empty when `b ≤ a`, matching Python's empty `range`. -/
def pyRange (a b : Nat) : List Nat :=
  (List.range (b - a)).map fun k => a + k

/-- Member descriptor inside a `RecommendationEntry`, as built by
`create_recommendation` (`app.py` lines 322-336). -/
structure MemberDesc where
  employee_id : String
  nickname : String
  lunch_preference : String
  main_dish_genre : String
  last_dining_together : String
deriving DecidableEq, Repr

/-- A `RecommendationEntry` (one dict in the cached list). -/
structure Recommendation where
  proposed_date : Nat
  recommended_group : List MemberDesc
deriving DecidableEq, Repr

/-- The recommendation cache dict, keyed by (employee id, date); see the
header note on the f-string key. -/
abbrev Cache := List ((String × Nat) × List Recommendation)

/-- The module globals `RECOMMENDATION_CACHE` and `CACHE_GENERATION_DATE`
(`app.py` lines 154-155); both start empty / `None`. -/
structure CacheState where
  cache : Cache
  genDate : Option Nat
deriving DecidableEq, Repr

/-- Python dict write `cache[k] = v`: replaces any binding of `k`. -/
def dictInsert (k : String × Nat) (v : List Recommendation) (c : Cache) : Cache :=
  (k, v) :: (c.filter fun e => decide (e.1 ≠ k))

/-- Python dict read `cache.get(k)` / `k in cache`. -/
def dictGet (c : Cache) (k : String × Nat) : Option (List Recommendation) :=
  ((c : List _).find? fun e => decide (e.1 = k)).map fun e => e.2

/-- The jitter oracle standing for `random.uniform(0, 50)`: the value drawn
for a (requester id, candidate id, date) triple during one run. -/
def Rand := String → String → Nat → ℚ

/-- `Python or` on a nullable string with a default: `member.nickname or
'익명'`. -/
def pyOr (o : Option String) (dflt : String) : String :=
  match o with
  | some s => if s == "" then dflt else s
  | none => dflt

/-- `get_user_preference` (`app.py` lines 338-344): first matching row's
value, else the empty string. -/
def get_user_preference (db : DB) (user_id preference_type : String) : String :=
  match db.preferences.find? fun p =>
      p.user_id == user_id && p.preference_type == preference_type with
  | some p => p.preference_value
  | none => ""

/-- The join condition of both `get_last_dining_together` queries: some
`PartyMember` row of this party pairs the two users so that one is the
party's host and the other the row's member. -/
def hostMemberPair (db : DB) (p : Party) (u1 u2 : String) : Bool :=
  (p.host_employee_id == u1 &&
    (db.partyMembers.any fun m => m.party_id == p.id && m.employee_id == u2)) ||
  (p.host_employee_id == u2 &&
    (db.partyMembers.any fun m => m.party_id == p.id && m.employee_id == u1))

/-- Dates of the parties matched by the `get_last_dining_together` queries:
host/member-paired parties strictly before the generation day `today`
(the source compares against `get_seoul_today()`, not the target date). -/
def sharedHostedPartyDates (db : DB) (today : Nat) (u1 u2 : String) : List Nat :=
  (db.parties.filter fun p =>
    hostMemberPair db p u1 u2 && decide (p.party_date < today)).map Party.party_date

/-- `ORDER BY party_date DESC ... first()`: the maximum of the listed
dates, `none` on an empty result. -/
def maxDate? : List Nat → Option Nat
  | [] => none
  | d :: ds => some (ds.foldl max d)

/-- First definition of `get_last_dining_together` (`app.py` lines
386-406): the most recent host/member-paired party date before `today`,
or `None`.  Dead code: the second top-level definition below rebinds the
module global name before any caller runs. -/
def get_last_dining_together (db : DB) (today : Nat) (user1_id user2_id : String) :
    Option Nat :=
  maxDate? (sharedHostedPartyDates db today user1_id user2_id)

/-- The relative-time rendering of the second `get_last_dining_together`
(`app.py` lines 6233-6277) applied to `days_diff = today - party_date`. -/
def formatDaysAgo (days_diff : Nat) : String :=
  if days_diff == 0 then "오늘"
  else if days_diff == 1 then "어제"
  else if days_diff < 7 then toString days_diff ++ "일 전"
  else if days_diff < 30 then toString (days_diff / 7) ++ "주 전"
  else if days_diff < 365 then toString (days_diff / 30) ++ "개월 전"
  else toString (days_diff / 365) ++ "년 전"

/-- Second definition of `get_last_dining_together` (`app.py` lines
6233-6277).  Being the later top-level `def` of the same name, it is the
one the module global resolves to when `create_recommendation` runs; it
returns a relative-time string, with sentinel `"처음 만나는 동료"` when no
host/member-paired party before `today` exists. -/
def get_last_dining_together_final (db : DB) (today : Nat) (user1_id user2_id : String) :
    String :=
  match maxDate? (sharedHostedPartyDates db today user1_id user2_id) with
  | some party_date => formatDaysAgo (today - party_date)
  | none => "처음 만나는 동료"

/-- `create_recommendation` (`app.py` lines 322-336). -/
def create_recommendation (db : DB) (today : Nat) (group : List DBUser)
    (target_date : Nat) (requester_id : String) : Recommendation :=
  { proposed_date := target_date
    recommended_group := group.map fun member =>
      { employee_id := member.employee_id
        nickname := pyOr member.nickname "익명"
        lunch_preference := get_user_preference db member.employee_id "lunch_preference"
        main_dish_genre := pyOr member.main_dish_genre ""
        last_dining_together :=
          get_last_dining_together_final db today requester_id member.employee_id } }

/-- Index triples enumerated by the three nested `for` loops of the
triples stage of `generate_efficient_groups` (Python `range` bounds,
including the `min(len - 2, 6)` style clamps). -/
def tripleIdxs (n : Nat) : List (Nat × Nat × Nat) :=
  (List.range (min (n - 2) 6)).flatMap fun i =>
    (pyRange (i + 1) (min (n - 1) (i + 3))).flatMap fun j =>
      (pyRange (j + 1) (min n (j + 3))).map fun k => (i, j, k)

/-- Index pairs enumerated by the pairs stage of
`generate_efficient_groups`. -/
def pairIdxs (n : Nat) : List (Nat × Nat) :=
  (List.range (min (n - 1) 3)).flatMap fun i =>
    (pyRange (i + 1) (min n (i + 2))).map fun j => (i, j)

/-- Out-of-range placeholder for positional indexing; every index the
assembler uses is in range, so it is never read. -/
def dummyScored : DBUser × ℚ := (⟨"", none, none, none, none⟩, 0)

/-- `generate_efficient_groups` (`app.py` lines 284-320).  The
check-before-append `break` discipline of the source makes each stage
append exactly the first elements of its loop enumeration up to its cap:
6 triples, then pairs up to a total of 9 (stage entered only when fewer
than 9 groups exist and at least 2 candidates), then one single when
fewer than 10 groups exist, and a final `[:10]` truncation. -/
def tripleRecs (db : DB) (today : Nat) (scored_users : List (DBUser × ℚ))
    (target_date : Nat) (requester_id : String) : List Recommendation :=
  ((tripleIdxs scored_users.length).take 6).map fun t =>
    create_recommendation db today
      [(scored_users.getD t.1 dummyScored).1,
       (scored_users.getD t.2.1 dummyScored).1,
       (scored_users.getD t.2.2 dummyScored).1] target_date requester_id

def pairRecs (db : DB) (today : Nat) (scored_users : List (DBUser × ℚ))
    (target_date : Nat) (requester_id : String) (count : Nat) : List Recommendation :=
  ((pairIdxs scored_users.length).take count).map fun t =>
    create_recommendation db today
      [(scored_users.getD t.1 dummyScored).1,
       (scored_users.getD t.2 dummyScored).1] target_date requester_id

def singleRec (db : DB) (today : Nat) (scored_users : List (DBUser × ℚ))
    (target_date : Nat) (requester_id : String) : Recommendation :=
  create_recommendation db today
    [(scored_users.getD 0 dummyScored).1] target_date requester_id

def generate_efficient_groups (db : DB) (today : Nat)
    (scored_users : List (DBUser × ℚ)) (target_date : Nat) (requester_id : String) :
    List Recommendation :=
  let n := scored_users.length
  let recs := tripleRecs db today scored_users target_date requester_id
  let recs := if recs.length < 9 ∧ 2 ≤ n then
      recs ++ pairRecs db today scored_users target_date requester_id (9 - recs.length)
    else recs
  let recs := if recs.length < 10 ∧ 1 ≤ n then
      recs ++ [singleRec db today scored_users target_date requester_id]
    else recs
  recs.take 10

/-- The scored-candidate list one user's iteration of
`generate_recommendation_cache` builds for one date: every other user
available that day, scored by compatibility + pattern + jitter, then
sorted descending by score (Python's stable `sort(reverse=True)`). -/
def scoredCandidates (db : DB) (rand : Rand) (d : Nat) (user : DBUser) : List (DBUser × ℚ) :=
  let avail := get_available_users_for_date db d
  let available_users := db.users.filter fun u =>
    decide (u.employee_id ∈ avail) && u.employee_id != user.employee_id
  let scored := available_users.map fun au =>
    (au, ((calculate_compatibility_score_cached user au
            + calculate_pattern_score_cached db user au : Nat) : ℚ)
          + rand user.employee_id au.employee_id d)
  List.insertionSort (fun x y => x.2 ≥ y.2) scored

/-- One user's step of the per-date loop of
`generate_recommendation_cache` (`app.py` lines 223-254). -/
def processUser (db : DB) (rand : Rand) (today d : Nat) (c : Cache) (user : DBUser) :
    Cache :=
  if user.employee_id ∈ get_available_users_for_date db d then
    let scored_users := scoredCandidates db rand d user
    if scored_users.length < 1 then c
    else dictInsert (user.employee_id, d)
      (generate_efficient_groups db today scored_users d user.employee_id) c
  else c

/-- One date's step of the 30-day loop of
`generate_recommendation_cache`. -/
def processDay (db : DB) (rand : Rand) (today : Nat) (c : Cache) (d : Nat) : Cache :=
  if get_available_users_for_date db d = ∅ then c
  else db.users.foldl (processUser db rand today d) c

/-- The weekday dates of the 30-day window starting at `today`
(`target_date.weekday() >= 5` skipped; Monday epoch, so `d % 7 < 5`). -/
def windowDays (today : Nat) : List Nat :=
  ((List.range 30).map fun off => today + off).filter fun d => decide (d % 7 < 5)

/-- The rebuild path of `generate_recommendation_cache` (`app.py` lines
164-257), from the point where the two globals have been reset: clears
the cache, stamps the generation date, and (when users exist) fills the
cache over the 30-day window. -/
def buildCache (db : DB) (rand : Rand) (today : Nat) : CacheState :=
  if db.users.length = 0 then { cache := [], genDate := some today }
  else { cache := (windowDays today).foldl (processDay db rand today) [],
         genDate := some today }

/-- The fast-path guard of `generate_recommendation_cache`:
`CACHE_GENERATION_DATE == current_date_str and RECOMMENDATION_CACHE`
(the second conjunct is dict truthiness, i.e. non-emptiness). -/
def generateFastPath (st : CacheState) (today : Nat) : Bool :=
  (st.genDate == some today) && !(st.cache.isEmpty)

/-- `generate_recommendation_cache` (`app.py` lines 164-257) as a state
transition on the module globals. -/
def generate_recommendation_cache (db : DB) (rand : Rand) (today : Nat)
    (st : CacheState) : CacheState :=
  if generateFastPath st today then st else buildCache db rand today

/-- State of the module globals at the moment an in-progress
`generate_recommendation_cache` call propagates an exception raised by
its first directory query (`db.session.query(User).all()`): the source
has already executed `RECOMMENDATION_CACHE = {}` and
`CACHE_GENERATION_DATE = current_date_str` before issuing any query, so
the previous cache is gone when the error escapes. -/
def generate_recommendation_cache_aborted (today : Nat) (st : CacheState) : CacheState :=
  if generateFastPath st today then st else { cache := [], genDate := some today }

/-- The default `selected_date` of `get_smart_recommendations`: today, or
the following Monday when today is a weekend day. -/
def defaultSelectedDate (today : Nat) : Nat :=
  if today % 7 ≥ 5 then
    let days_until_monday := (7 - today % 7) % 7
    let days_until_monday := if days_until_monday = 0 then 7 else days_until_monday
    today + days_until_monday
  else today

/-- The cache-facing core of `get_smart_recommendations` (`app.py` lines
6295-6338): regenerate synchronously when the cache dict is empty, then
answer from the cache, with `[]` on a missing key.  Returns the response
body together with the state of the module globals after the call. -/
def get_smart_recommendations (db : DB) (rand : Rand) (today : Nat)
    (employee_id : String) (selected_date : Option Nat) (st : CacheState) :
    List Recommendation × CacheState :=
  let st := if st.cache.isEmpty then generate_recommendation_cache db rand today st else st
  let d := match selected_date with
    | some d => d
    | none => defaultSelectedDate today
  match dictGet st.cache (employee_id, d) with
  | some recs => (recs, st)
  | none => ([], st)

/-- Degenerate jitter oracle used for concrete instances. -/
def rand0 : Rand := fun _ _ _ => 0

/-- Concrete user fixtures for witnesses and counterexamples. -/
def exU1 : DBUser := ⟨"u1", none, none, none, none⟩

def exU2 : DBUser := ⟨"u2", none, none, none, none⟩

def exUA : DBUser := ⟨"a", none, some "남", some "30", some "한식"⟩

def exUB : DBUser := ⟨"b", none, some "여", some "30", some "한식"⟩

/-- Two users, no commitments. -/
def twoUserDB : DB := ⟨[exU1, exU2], [], [], [], []⟩

/-- A single user, no commitments: a generation run completes but stores
nothing (no other candidate ever exists). -/
def oneUserDB : DB := ⟨[exU1], [], [], [], []⟩

/-- Two users plus a party on day 2 hosted by `u1` with `u2` as member. -/
def hostPartyDB : DB := ⟨[exU1, exU2], [⟨1, "u1", 2⟩], [⟨1, "u2"⟩], [], []⟩

/-- Two users plus a party on day 2 hosted by an outsider `u3`, with both
`u1` and `u2` as registered (non-host) members. -/
def memberPartyDB : DB := ⟨[exU1, exU2], [⟨1, "u3", 2⟩], [⟨1, "u1"⟩, ⟨1, "u2"⟩], [], []⟩

/-- A leftover recommendation entry from an earlier generation day. -/
def exRec : Recommendation := ⟨3, [⟨"u2", "익명", "", "", "처음 만나는 동료"⟩]⟩

/-- Module-global state as left by a completed run on day 2: one cached
entry under key `("u1", 3)`. -/
def prevState : CacheState := ⟨[(("u1", 3), [exRec])], some 2⟩

/-- Shape of a group emitted by one assembler stage output. -/
def GroupShape (db : DB) (today : Nat) (su : List (DBUser × ℚ)) (d : Nat)
    (req : String) (r : Recommendation) : Prop :=
  ∃ g : List DBUser, g ≠ [] ∧ g.length ≤ 3 ∧
    (∀ u ∈ g, u ∈ su.map Prod.fst) ∧ r = create_recommendation db today g d req

/-- Claim-side notion for C9: the user attended the party, as host or as
registered member. -/
def attends (db : DB) (p : Party) (u : String) : Prop :=
  p.host_employee_id = u ∨ ∃ m ∈ db.partyMembers, m.party_id = p.id ∧ m.employee_id = u

instance (db : DB) (p : Party) (u : String) : Decidable (attends db p u) := by
  unfold attends; infer_instance

/-- Claim-side notion for C9: some party strictly before the cutoff date
was attended by both users. -/
def sharedPartyBefore (db : DB) (cutoff : Nat) (u1 u2 : String) : Prop :=
  ∃ p ∈ db.parties, attends db p u1 ∧ attends db p u2 ∧ p.party_date < cutoff

instance (db : DB) (cutoff : Nat) (u1 u2 : String) :
    Decidable (sharedPartyBefore db cutoff u1 u2) := by
  unfold sharedPartyBefore; infer_instance

theorem truthy_iff {o : Option String} : truthy o = true ↔ nonemptyTag o := by
  cases o with
  | none => simp [truthy, nonemptyTag]
  | some s => simp [truthy, nonemptyTag]

theorem mem_allUserIds {db : DB} {u : String} :
    u ∈ allUserIds db ↔ ∃ w ∈ db.users, w.employee_id = u := by
  simp [allUserIds]

theorem mem_partyUsersOn {db : DB} {d : Nat} {u : String} :
    u ∈ partyUsersOn db d ↔ ∃ p ∈ db.parties, p.party_date = d ∧
      (p.host_employee_id = u ∨
        ∃ m ∈ db.partyMembers, m.party_id = p.id ∧ m.employee_id = u) := by
  simp only [partyUsersOn, List.mem_toFinset, List.mem_flatMap, List.mem_filter,
    List.mem_cons, List.mem_map, beq_iff_eq]
  constructor
  · rintro ⟨p, ⟨hp, hpd⟩, h | ⟨m, ⟨hm, hmp⟩, hmu⟩⟩
    · exact ⟨p, hp, hpd, Or.inl h.symm⟩
    · exact ⟨p, hp, hpd, Or.inr ⟨m, hm, hmp, hmu⟩⟩
  · rintro ⟨p, hp, hpd, h | ⟨m, hm, hmp, hmu⟩⟩
    · exact ⟨p, ⟨hp, hpd⟩, Or.inl h.symm⟩
    · exact ⟨p, ⟨hp, hpd⟩, Or.inr ⟨m, ⟨hm, hmp⟩, hmu⟩⟩

theorem mem_scheduleUsersOn {db : DB} {d : Nat} {u : String} :
    u ∈ scheduleUsersOn db d ↔
      ∃ s ∈ db.schedules, s.schedule_date = d ∧ s.employee_id = u := by
  simp only [scheduleUsersOn, List.mem_toFinset, List.mem_map, List.mem_filter, beq_iff_eq]
  constructor
  · rintro ⟨s, ⟨hs, hsd⟩, hsu⟩; exact ⟨s, hs, hsd, hsu⟩
  · rintro ⟨s, hs, hsd, hsu⟩; exact ⟨s, ⟨hs, hsd⟩, hsu⟩

/-- C1: a user id is available on a date iff it is a known user id that
is neither host nor registered member of any party on that date and has
no personal schedule entry on that date; equivalently the resolver
returns all known ids minus the union of the two commitment sets. -/
theorem availability_resolver_correct (db : DB) (d : Nat) (u : String) :
    (u ∈ get_available_users_for_date db d ↔
      (∃ w ∈ db.users, w.employee_id = u) ∧
      (∀ p ∈ db.parties, p.party_date = d → p.host_employee_id ≠ u ∧
        ∀ m ∈ db.partyMembers, m.party_id = p.id → m.employee_id ≠ u) ∧
      (∀ s ∈ db.schedules, s.schedule_date = d → s.employee_id ≠ u)) ∧
    get_available_users_for_date db d =
      allUserIds db \ (partyUsersOn db d ∪ scheduleUsersOn db d) := by
  constructor
  · rw [get_available_users_for_date, Finset.mem_sdiff, Finset.mem_sdiff,
      mem_allUserIds, mem_partyUsersOn, mem_scheduleUsersOn]
    constructor
    · rintro ⟨⟨hall, hparty⟩, hsched⟩
      refine ⟨hall, ?_, ?_⟩
      · intro p hp hpd
        constructor
        · intro h
          exact hparty ⟨p, hp, hpd, Or.inl h⟩
        · intro m hm hmp h
          exact hparty ⟨p, hp, hpd, Or.inr ⟨m, hm, hmp, h⟩⟩
      · intro s hs hsd h
        exact hsched ⟨s, hs, hsd, h⟩
    · rintro ⟨hall, hparty, hsched⟩
      refine ⟨⟨hall, ?_⟩, ?_⟩
      · rintro ⟨p, hp, hpd, h | ⟨m, hm, hmp, hmu⟩⟩
        · exact (hparty p hp hpd).1 h
        · exact (hparty p hp hpd).2 m hm hmp hmu
      · rintro ⟨s, hs, hsd, hsu⟩
        exact hsched s hs hsd hsu
  · rw [get_available_users_for_date, sdiff_sdiff_left, Finset.sup_eq_union]

theorem matchBonus_eq (a b : Option String) (s n : Nat) :
    (if truthy a && truthy b then (if a == b then s + n else s) else s) =
      s + (if nonemptyTag a ∧ nonemptyTag b ∧ a = b then n else 0) := by
  by_cases ha : truthy a = true <;> by_cases hb : truthy b = true <;>
    by_cases hab : a = b <;>
      simp [ha, hb, hab, truthy_iff.mp, fun h => mt truthy_iff.mpr h]

theorem diffBonus_eq (a b : Option String) (s n : Nat) :
    (if truthy a && truthy b then (if a != b then s + n else s) else s) =
      s + (if nonemptyTag a ∧ nonemptyTag b ∧ a ≠ b then n else 0) := by
  by_cases ha : truthy a = true <;> by_cases hb : truthy b = true <;>
    by_cases hab : a = b <;>
      simp [ha, hb, hab, truthy_iff.mp, fun h => mt truthy_iff.mpr h]

/-- The compatibility score, rewritten as a sum of three independent
bonuses stated over the spec-side tag predicates. -/
theorem compatibility_as_sum (user1 user2 : DBUser) :
    calculate_compatibility_score_cached user1 user2 =
      (if nonemptyTag user1.main_dish_genre ∧ nonemptyTag user2.main_dish_genre ∧
          user1.main_dish_genre = user2.main_dish_genre then 30 else 0)
      + (if nonemptyTag user1.age_group ∧ nonemptyTag user2.age_group ∧
          user1.age_group = user2.age_group then 20 else 0)
      + (if nonemptyTag user1.gender ∧ nonemptyTag user2.gender ∧
          user1.gender ≠ user2.gender then 15 else 0) := by
  simp only [calculate_compatibility_score_cached]
  rw [diffBonus_eq, matchBonus_eq, matchBonus_eq]
  simp [Nat.add_assoc]

theorem foldl_invariant {α β : Type} (f : β → α → β) (P : β → Prop) (l : List α)
    (hpres : ∀ b x, x ∈ l → P b → P (f b x)) (c : β) (hc : P c) : P (l.foldl f c) := by
  induction l generalizing c with
  | nil => exact hc
  | cons x xs ih =>
      exact ih (fun b y hy => hpres b y (List.mem_cons_of_mem _ hy)) _
        (hpres c x (List.mem_cons_self _ _) hc)

theorem foldl_establishes {α β : Type} (f : β → α → β) (P : β → Prop) (l : List α)
    (a : α) (ha : a ∈ l) (hest : ∀ b, P (f b a))
    (hpres : ∀ b x, x ∈ l → P b → P (f b x)) (c : β) : P (l.foldl f c) := by
  induction l generalizing c with
  | nil => cases ha
  | cons x xs ih =>
      rcases List.mem_cons.mp ha with rfl | ha'
      · exact foldl_invariant f P xs
          (fun b y hy => hpres b y (List.mem_cons_of_mem _ hy)) _ (hest c)
      · exact ih ha' (fun b y hy => hpres b y (List.mem_cons_of_mem _ hy)) _

theorem mem_dictInsert {k : String × Nat} {v : List Recommendation} {c : Cache}
    {e : (String × Nat) × List Recommendation} (he : e ∈ dictInsert k v c) :
    e = (k, v) ∨ e ∈ c := by
  rcases List.mem_cons.mp he with h | h
  · exact Or.inl h
  · exact Or.inr (List.mem_filter.mp h).1

theorem dictGet_eq_some_mem {c : Cache} {k : String × Nat} {v : List Recommendation}
    (h : dictGet c k = some v) : (k, v) ∈ c := by
  unfold dictGet at h
  rcases ho : (c : List _).find? fun e => decide (e.1 = k) with _ | e
  · rw [ho] at h; cases h
  · rw [ho] at h
    have hm := List.mem_of_find?_eq_some ho
    have hk := List.find?_some ho
    have : e.1 = k := by simpa using hk
    cases h
    rcases e with ⟨k', v'⟩
    cases this
    exact hm

theorem dictGet_dictInsert_self {k : String × Nat} {v : List Recommendation} {c : Cache} :
    dictGet (dictInsert k v c) k = some v := by
  unfold dictGet dictInsert
  simp [List.find?_cons]

theorem find?_filter_of_imp {α : Type} (l : List α) (p q : α → Bool)
    (h : ∀ x, p x = true → q x = true) : (l.filter q).find? p = l.find? p := by
  induction l with
  | nil => rfl
  | cons x xs ih =>
      by_cases hq : q x = true
      · rw [List.filter_cons_of_pos hq]
        by_cases hp : p x = true
        · rw [List.find?_cons_of_pos _ hp, List.find?_cons_of_pos _ hp]
        · rw [List.find?_cons_of_neg _ (by simp [hp]),
            List.find?_cons_of_neg _ (by simp [hp]), ih]
      · have hp : ¬ p x = true := fun hpx => hq (h x hpx)
        rw [List.filter_cons_of_neg (by simpa using hq), ih,
          List.find?_cons_of_neg _ (by simp [hp])]

theorem dictGet_dictInsert_ne {k k' : String × Nat} {v : List Recommendation} {c : Cache}
    (h : k' ≠ k) : dictGet (dictInsert k v c) k' = dictGet c k' := by
  unfold dictGet dictInsert
  rw [List.find?_cons_of_neg _
      (by simp only [decide_eq_true_eq]; exact fun he => h he.symm),
    find?_filter_of_imp]
  intro x hx
  have : x.1 = k' := by simpa using hx
  simp [this, h]

theorem mem_pyRange {a b x : Nat} (h : x ∈ pyRange a b) : a ≤ x ∧ x < b := by
  rcases List.mem_map.mp h with ⟨k, hk, rfl⟩
  have := List.mem_range.mp hk
  omega

theorem tripleIdxs_bounds {n i j k : Nat} (h : (i, j, k) ∈ tripleIdxs n) :
    i < n ∧ j < n ∧ k < n := by
  rcases List.mem_flatMap.mp h with ⟨a, ha, h2⟩
  rcases List.mem_flatMap.mp h2 with ⟨b, hb, h3⟩
  rcases List.mem_map.mp h3 with ⟨c, hc, heq⟩
  simp only [Prod.mk.injEq] at heq
  obtain ⟨rfl, rfl, rfl⟩ := heq
  have ha' := List.mem_range.mp ha
  have hb' := mem_pyRange hb
  have hc' := mem_pyRange hc
  rcases lt_min_iff.mp ha' with ⟨ha1, ha2⟩
  rcases lt_min_iff.mp hb'.2 with ⟨hb1, hb2⟩
  rcases lt_min_iff.mp hc'.2 with ⟨hc1, hc2⟩
  exact ⟨by omega, by omega, by omega⟩

theorem pairIdxs_bounds {n i j : Nat} (h : (i, j) ∈ pairIdxs n) : i < n ∧ j < n := by
  rcases List.mem_flatMap.mp h with ⟨a, ha, h2⟩
  rcases List.mem_map.mp h2 with ⟨b, hb, heq⟩
  simp only [Prod.mk.injEq] at heq
  obtain ⟨rfl, rfl⟩ := heq
  have ha' := List.mem_range.mp ha
  have hb' := mem_pyRange hb
  rcases lt_min_iff.mp ha' with ⟨ha1, ha2⟩
  rcases lt_min_iff.mp hb'.2 with ⟨hb1, hb2⟩
  exact ⟨by omega, by omega⟩

theorem getD_mem_map_fst {su : List (DBUser × ℚ)} {i : Nat} (h : i < su.length) :
    (su.getD i dummyScored).1 ∈ su.map Prod.fst := by
  rw [List.getD_eq_getElem su dummyScored h]
  exact List.mem_map_of_mem Prod.fst (List.getElem_mem h)

theorem tripleRecs_shape (db : DB) (today : Nat) (su : List (DBUser × ℚ)) (d : Nat)
    (req : String) : ∀ r ∈ tripleRecs db today su d req, GroupShape db today su d req r := by
  intro r hr
  rcases List.mem_map.mp hr with ⟨⟨i, j, k⟩, ht, rfl⟩
  have hb := tripleIdxs_bounds (List.mem_of_mem_take ht)
  refine ⟨_, by simp, by simp, ?_, rfl⟩
  intro u hu
  rcases List.mem_cons.mp hu with rfl | hu
  · exact getD_mem_map_fst hb.1
  rcases List.mem_cons.mp hu with rfl | hu
  · exact getD_mem_map_fst hb.2.1
  rcases List.mem_cons.mp hu with rfl | hu
  · exact getD_mem_map_fst hb.2.2
  · cases hu

theorem pairRecs_shape (db : DB) (today : Nat) (su : List (DBUser × ℚ)) (d : Nat)
    (req : String) (count : Nat) :
    ∀ r ∈ pairRecs db today su d req count, GroupShape db today su d req r := by
  intro r hr
  rcases List.mem_map.mp hr with ⟨⟨i, j⟩, ht, rfl⟩
  have hb := pairIdxs_bounds (List.mem_of_mem_take ht)
  refine ⟨_, by simp, by simp, ?_, rfl⟩
  intro u hu
  rcases List.mem_cons.mp hu with rfl | hu
  · exact getD_mem_map_fst hb.1
  rcases List.mem_cons.mp hu with rfl | hu
  · exact getD_mem_map_fst hb.2
  · cases hu

theorem singleRec_shape (db : DB) (today : Nat) (su : List (DBUser × ℚ)) (d : Nat)
    (req : String) (hn : 1 ≤ su.length) :
    GroupShape db today su d req (singleRec db today su d req) := by
  refine ⟨_, by simp, by simp, ?_, rfl⟩
  intro u hu
  rcases List.mem_cons.mp hu with rfl | hu
  · exact getD_mem_map_fst hn
  · cases hu

/-- Every group the assembler emits is non-empty, has at most three
members, draws all its members from the scored candidate list, and is
packaged through `create_recommendation`. -/
theorem geg_groups (db : DB) (today : Nat) (su : List (DBUser × ℚ)) (d : Nat)
    (req : String) :
    ∀ r ∈ generate_efficient_groups db today su d req, GroupShape db today su d req r := by
  intro r hr
  simp only [generate_efficient_groups] at hr
  have hr' := List.mem_of_mem_take hr
  split at hr'
  case isTrue h1 =>
    split at hr'
    case isTrue h2 =>
      rcases List.mem_append.mp hr' with h3 | h3
      · rcases List.mem_append.mp h3 with h4 | h4
        · exact tripleRecs_shape db today su d req r h4
        · exact pairRecs_shape db today su d req _ r h4
      · have hr4 : r = singleRec db today su d req := by simpa using h3
        subst hr4
        exact singleRec_shape db today su d req (by omega)
    case isFalse h2 =>
      rcases List.mem_append.mp hr' with h3 | h3
      · exact tripleRecs_shape db today su d req r h3
      · exact pairRecs_shape db today su d req _ r h3
  case isFalse h1 =>
    split at hr'
    case isTrue h2 =>
      rcases List.mem_append.mp hr' with h3 | h3
      · exact tripleRecs_shape db today su d req r h3
      · have hr4 : r = singleRec db today su d req := by simpa using h3
        subst hr4
        exact singleRec_shape db today su d req (by omega)
    case isFalse h2 => exact tripleRecs_shape db today su d req r hr'

theorem geg_length_le (db : DB) (today : Nat) (su : List (DBUser × ℚ)) (d : Nat)
    (req : String) : (generate_efficient_groups db today su d req).length ≤ 10 := by
  simp only [generate_efficient_groups]
  exact List.length_take_le 10 _

theorem tripleRecs_length_le (db : DB) (today : Nat) (su : List (DBUser × ℚ))
    (d : Nat) (req : String) : (tripleRecs db today su d req).length ≤ 6 := by
  simp only [tripleRecs, List.length_map]
  exact List.length_take_le 6 _

theorem pairRecs_length_le (db : DB) (today : Nat) (su : List (DBUser × ℚ))
    (d : Nat) (req : String) (count : Nat) :
    (pairRecs db today su d req count).length ≤ count := by
  simp only [pairRecs, List.length_map]
  exact List.length_take_le count _

/-- With a non-empty candidate list the assembler always appends, last of
all, the single-member group built from the list head, and the final
`[:10]` truncation never drops it. -/
theorem geg_last (db : DB) (today : Nat) (su : List (DBUser × ℚ)) (d : Nat)
    (req : String) (h : su ≠ []) :
    generate_efficient_groups db today su d req ≠ [] ∧
    (generate_efficient_groups db today su d req).getLast? =
      some (singleRec db today su d req) := by
  have hn : 1 ≤ su.length := List.length_pos.mpr h
  have h6 := tripleRecs_length_le db today su d req
  simp only [generate_efficient_groups]
  by_cases h9 : (tripleRecs db today su d req).length < 9 ∧ 2 ≤ su.length
  · rw [if_pos h9]
    have hp := pairRecs_length_le db today su d req
      (9 - (tripleRecs db today su d req).length)
    have h92 : (tripleRecs db today su d req ++
        pairRecs db today su d req (9 - (tripleRecs db today su d req).length)).length ≤ 9 := by
      rw [List.length_append]; omega
    rw [if_pos ⟨by omega, hn⟩]
    rw [List.take_of_length_le (by rw [List.length_append]; simp; omega)]
    exact ⟨by simp, List.getLast?_concat _⟩
  · rw [if_neg h9]
    rw [if_pos ⟨by omega, hn⟩]
    rw [List.take_of_length_le (by rw [List.length_append]; simp; omega)]
    exact ⟨by simp, List.getLast?_concat _⟩

theorem mem_scoredCandidates {db : DB} {rand : Rand} {d : Nat} {user : DBUser}
    {x : DBUser × ℚ} (hx : x ∈ scoredCandidates db rand d user) :
    x.1 ∈ db.users ∧ x.1.employee_id ∈ get_available_users_for_date db d ∧
      x.1.employee_id ≠ user.employee_id := by
  simp only [scoredCandidates] at hx
  have hx' := (List.perm_insertionSort (fun a b : DBUser × ℚ => a.2 ≥ b.2) _).mem_iff.mp hx
  rcases List.mem_map.mp hx' with ⟨au, hau, rfl⟩
  have h1 := (List.mem_filter.mp hau).1
  have h2 := (List.mem_filter.mp hau).2
  simp only [Bool.and_eq_true, decide_eq_true_eq, bne_iff_ne, ne_eq] at h2
  exact ⟨h1, h2.1, h2.2⟩

theorem scoredCandidates_ne_nil {db : DB} {rand : Rand} {d : Nat} {user : DBUser}
    (h : ∃ other ∈ db.users, other.employee_id ∈ get_available_users_for_date db d ∧
          other.employee_id ≠ user.employee_id) :
    scoredCandidates db rand d user ≠ [] := by
  rcases h with ⟨other, ho, hoa, hne⟩
  simp only [scoredCandidates]
  intro hnil
  have hperm := List.perm_insertionSort (fun a b : DBUser × ℚ => a.2 ≥ b.2)
    ((db.users.filter fun u =>
        decide (u.employee_id ∈ get_available_users_for_date db d)
          && u.employee_id != user.employee_id).map fun au =>
      (au, ((calculate_compatibility_score_cached user au
              + calculate_pattern_score_cached db user au : Nat) : ℚ)
            + rand user.employee_id au.employee_id d))
  rw [hnil] at hperm
  have hLnil := hperm.symm.eq_nil
  have hmem : other ∈ db.users.filter fun u =>
      decide (u.employee_id ∈ get_available_users_for_date db d)
        && u.employee_id != user.employee_id := by
    refine List.mem_filter.mpr ⟨ho, ?_⟩
    simp [hoa, hne]
  have : (other, ((calculate_compatibility_score_cached user other
          + calculate_pattern_score_cached db user other : Nat) : ℚ)
        + rand user.employee_id other.employee_id d) ∈ ([] : List (DBUser × ℚ)) := by
    rw [← hLnil]
    exact List.mem_map_of_mem _ hmem
  cases this

theorem processUser_forall (db : DB) (rand : Rand) (today d : Nat)
    (Q : (String × Nat) → List Recommendation → Prop)
    (hQ : ∀ user ∈ db.users, ∀ d' : Nat,
      Q (user.employee_id, d')
        (generate_efficient_groups db today (scoredCandidates db rand d' user) d'
          user.employee_id)) :
    ∀ (c : Cache) (x : DBUser), x ∈ db.users → (∀ e ∈ c, Q e.1 e.2) →
      ∀ e ∈ processUser db rand today d c x, Q e.1 e.2 := by
  intro c x hx hc e he
  simp only [processUser] at he
  split at he
  · split at he
    · exact hc e he
    · rcases mem_dictInsert he with rfl | hmem
      · exact hQ x hx d
      · exact hc e hmem
  · exact hc e he

theorem processDay_forall (db : DB) (rand : Rand) (today : Nat)
    (Q : (String × Nat) → List Recommendation → Prop)
    (hQ : ∀ user ∈ db.users, ∀ d' : Nat,
      Q (user.employee_id, d')
        (generate_efficient_groups db today (scoredCandidates db rand d' user) d'
          user.employee_id)) :
    ∀ (c : Cache) (d : Nat), (∀ e ∈ c, Q e.1 e.2) →
      ∀ e ∈ processDay db rand today c d, Q e.1 e.2 := by
  intro c d hc e he
  simp only [processDay] at he
  split at he
  · exact hc e he
  · exact foldl_invariant (processUser db rand today d)
      (fun c' => ∀ e ∈ c', Q e.1 e.2) db.users
      (fun b x hx hb => processUser_forall db rand today d Q hQ b x hx hb) c hc e he

/-- Master invariant of the rebuild: every entry the run stores is, for
some user row of the snapshot and some date, the assembler's output on
that user's scored candidate list, keyed by that user's id and date. -/
theorem buildCache_forall (db : DB) (rand : Rand) (today : Nat)
    (Q : (String × Nat) → List Recommendation → Prop)
    (hQ : ∀ user ∈ db.users, ∀ d' : Nat,
      Q (user.employee_id, d')
        (generate_efficient_groups db today (scoredCandidates db rand d' user) d'
          user.employee_id)) :
    ∀ e ∈ (buildCache db rand today).cache, Q e.1 e.2 := by
  intro e he
  simp only [buildCache] at he
  split at he
  · exact absurd he (List.not_mem_nil e)
  · exact foldl_invariant (processDay db rand today)
      (fun c' => ∀ e ∈ c', Q e.1 e.2) (windowDays today)
      (fun b x hx hb => processDay_forall db rand today Q hQ b x hb) []
      (fun e h => absurd h (List.not_mem_nil e)) e he

theorem processUser_preserves_key (db : DB) (rand : Rand) (today d' : Nat)
    (key : String × Nat) :
    ∀ (c : Cache) (x : DBUser),
      (∃ v, dictGet c key = some v ∧ v ≠ []) →
      ∃ v, dictGet (processUser db rand today d' c x) key = some v ∧ v ≠ [] := by
  rintro c x ⟨v, hv, hvne⟩
  simp only [processUser]
  split
  · split
    case isTrue => exact ⟨v, hv, hvne⟩
    case isFalse hlen =>
      by_cases hk : key = (x.employee_id, d')
      · subst hk
        refine ⟨_, dictGet_dictInsert_self, ?_⟩
        have hsc : scoredCandidates db rand d' x ≠ [] := by
          intro hnil
          rw [hnil] at hlen
          exact hlen (by simp)
        exact (geg_last db today _ d' x.employee_id hsc).1
      · rw [dictGet_dictInsert_ne hk]
        exact ⟨v, hv, hvne⟩
  · exact ⟨v, hv, hvne⟩

theorem processDay_preserves_key (db : DB) (rand : Rand) (today : Nat)
    (key : String × Nat) :
    ∀ (c : Cache) (d' : Nat),
      (∃ v, dictGet c key = some v ∧ v ≠ []) →
      ∃ v, dictGet (processDay db rand today c d') key = some v ∧ v ≠ [] := by
  intro c d' hc
  simp only [processDay]
  split
  · exact hc
  · exact foldl_invariant (processUser db rand today d')
      (fun c' => ∃ v, dictGet c' key = some v ∧ v ≠ []) db.users
      (fun b x _ hb => processUser_preserves_key db rand today d' key b x hb) c hc

theorem processUser_inserts (db : DB) (rand : Rand) (today d : Nat) (user : DBUser)
    (havail : user.employee_id ∈ get_available_users_for_date db d)
    (hsc : scoredCandidates db rand d user ≠ []) (c : Cache) :
    ∃ v, dictGet (processUser db rand today d c user) (user.employee_id, d) = some v ∧
      v ≠ [] := by
  simp only [processUser]
  rw [if_pos havail, if_neg (by
    have := List.length_pos.mpr hsc
    omega)]
  exact ⟨_, dictGet_dictInsert_self,
    (geg_last db today _ d user.employee_id hsc).1⟩

theorem processDay_inserts (db : DB) (rand : Rand) (today d : Nat) (user : DBUser)
    (huser : user ∈ db.users)
    (havail : user.employee_id ∈ get_available_users_for_date db d)
    (hsc : scoredCandidates db rand d user ≠ []) (c : Cache) :
    ∃ v, dictGet (processDay db rand today c d) (user.employee_id, d) = some v ∧
      v ≠ [] := by
  simp only [processDay]
  rw [if_neg (Finset.ne_empty_of_mem havail)]
  exact foldl_establishes (processUser db rand today d)
    (fun c' => ∃ v, dictGet c' (user.employee_id, d) = some v ∧ v ≠ []) db.users
    user huser (fun b => processUser_inserts db rand today d user havail hsc b)
    (fun b x _ hb => processUser_preserves_key db rand today d _ b x hb) c

/-- When a user is available on a window day and at least one other user
is available that day too, the rebuilt cache holds a non-empty entry for
that (user, date) key. -/
theorem buildCache_has_key (db : DB) (rand : Rand) (today d : Nat) (user : DBUser)
    (huser : user ∈ db.users) (hd : d ∈ windowDays today)
    (havail : user.employee_id ∈ get_available_users_for_date db d)
    (hother : ∃ other ∈ db.users,
      other.employee_id ∈ get_available_users_for_date db d ∧
      other.employee_id ≠ user.employee_id) :
    ∃ v, dictGet (buildCache db rand today).cache (user.employee_id, d) = some v ∧
      v ≠ [] := by
  have hsc := @scoredCandidates_ne_nil db rand d user hother
  simp only [buildCache]
  rw [if_neg (by
    have := List.length_pos.mpr (List.ne_nil_of_mem huser)
    omega)]
  exact foldl_establishes (processDay db rand today)
    (fun c' => ∃ v, dictGet c' (user.employee_id, d) = some v ∧ v ≠ [])
    (windowDays today) d hd
    (fun b => processDay_inserts db rand today d user huser havail hsc b)
    (fun b x _ hb => processDay_preserves_key db rand today _ b x hb) []

theorem foldl_max_spec (ds : List Nat) : ∀ d : Nat,
    (ds.foldl max d = d ∨ ds.foldl max d ∈ ds) ∧ d ≤ ds.foldl max d ∧
      ∀ y ∈ ds, y ≤ ds.foldl max d := by
  induction ds with
  | nil =>
      intro d
      exact ⟨Or.inl rfl, le_refl d, fun y h => absurd h (List.not_mem_nil y)⟩
  | cons a as ih =>
      intro d
      have h := ih (max d a)
      simp only [List.foldl_cons]
      refine ⟨?_, ?_, ?_⟩
      · rcases h.1 with he | hm
        · rcases max_choice d a with hc | hc
          · rw [he, hc]; exact Or.inl rfl
          · rw [he, hc]; exact Or.inr (List.mem_cons_self a as)
        · exact Or.inr (List.mem_cons_of_mem a hm)
      · exact le_trans (le_max_left d a) h.2.1
      · intro y hy
        rcases List.mem_cons.mp hy with rfl | hy'
        · exact le_trans (le_max_right d y) h.2.1
        · exact h.2.2 y hy'

theorem maxDate?_eq_none {l : List Nat} : maxDate? l = none ↔ l = [] := by
  cases l <;> simp [maxDate?]

theorem maxDate?_spec {l : List Nat} {x : Nat} (h : maxDate? l = some x) :
    x ∈ l ∧ ∀ y ∈ l, y ≤ x := by
  cases l with
  | nil => cases h
  | cons d ds =>
      simp only [maxDate?, Option.some.injEq] at h
      subst h
      have hs := foldl_max_spec ds d
      simp only [List.foldl_cons] at *
      refine ⟨?_, ?_⟩
      · rcases hs.1 with he | hm
        · rw [he]; exact List.mem_cons_self d ds
        · exact List.mem_cons_of_mem d hm
      · intro y hy
        rcases List.mem_cons.mp hy with rfl | hy'
        · exact hs.2.1
        · exact hs.2.2 y hy'

theorem mem_sharedHostedPartyDates {db : DB} {today : Nat} {u1 u2 : String} {x : Nat} :
    x ∈ sharedHostedPartyDates db today u1 u2 ↔
      ∃ p ∈ db.parties, hostMemberPair db p u1 u2 = true ∧ p.party_date < today ∧
        p.party_date = x := by
  simp only [sharedHostedPartyDates, List.mem_map, List.mem_filter, Bool.and_eq_true,
    decide_eq_true_eq]
  constructor
  · rintro ⟨p, ⟨hp, hpair, hlt⟩, rfl⟩; exact ⟨p, hp, hpair, hlt, rfl⟩
  · rintro ⟨p, hp, hpair, hlt, rfl⟩; exact ⟨p, ⟨hp, hpair, hlt⟩, rfl⟩

theorem get_last_dining_together_final_spec (db : DB) (today : Nat) (a b : String) :
    ((∀ p ∈ db.parties, hostMemberPair db p a b = true → ¬ p.party_date < today) →
      get_last_dining_together_final db today a b = "처음 만나는 동료") ∧
    (∀ x, maxDate? (sharedHostedPartyDates db today a b) = some x →
      get_last_dining_together_final db today a b = formatDaysAgo (today - x) ∧
      (∃ p ∈ db.parties, hostMemberPair db p a b = true ∧ p.party_date = x ∧
        x < today) ∧
      (∀ p ∈ db.parties, hostMemberPair db p a b = true → p.party_date < today →
        p.party_date ≤ x)) := by
  constructor
  · intro hno
    have hnil : sharedHostedPartyDates db today a b = [] := by
      rcases hl : sharedHostedPartyDates db today a b with _ | ⟨y, ys⟩
      · rfl
      · have : y ∈ sharedHostedPartyDates db today a b := by
          rw [hl]; exact List.mem_cons_self y ys
        rcases mem_sharedHostedPartyDates.mp this with ⟨p, hp, hpair, hlt, _⟩
        exact absurd hlt (hno p hp hpair)
    simp [get_last_dining_together_final, hnil, maxDate?]
  · intro x hx
    have hspec := maxDate?_spec hx
    rcases mem_sharedHostedPartyDates.mp hspec.1 with ⟨p, hp, hpair, hlt, hpx⟩
    refine ⟨?_, ⟨p, hp, hpair, hpx, hpx ▸ hlt⟩, ?_⟩
    · simp [get_last_dining_together_final, hx]
    · intro q hq hqpair hqlt
      exact hspec.2 q.party_date
        (mem_sharedHostedPartyDates.mpr ⟨q, hq, hqpair, hqlt, rfl⟩)

/-- C2: for distinct users the per-run compatibility score is the sum of
30 when both primary-cuisine-genre tags are non-empty and identical by
exact string match, 20 when both age-group tags are non-empty and equal,
and 15 when both gender tags are non-empty and different; and the
pattern score is 20 when the party-participation counts differ by at
most 2, 10 when the difference is greater than 2 but at most 5, and 0
otherwise. -/
theorem compatibility_and_pattern_formula (db : DB) (user1 user2 : DBUser) :
    calculate_compatibility_score_cached user1 user2 =
      (if nonemptyTag user1.main_dish_genre ∧ nonemptyTag user2.main_dish_genre ∧
          user1.main_dish_genre = user2.main_dish_genre then 30 else 0)
      + (if nonemptyTag user1.age_group ∧ nonemptyTag user2.age_group ∧
          user1.age_group = user2.age_group then 20 else 0)
      + (if nonemptyTag user1.gender ∧ nonemptyTag user2.gender ∧
          user1.gender ≠ user2.gender then 15 else 0) ∧
    (activityDiff db user1 user2 ≤ 2 →
      calculate_pattern_score_cached db user1 user2 = 20) ∧
    (2 < activityDiff db user1 user2 → activityDiff db user1 user2 ≤ 5 →
      calculate_pattern_score_cached db user1 user2 = 10) ∧
    (5 < activityDiff db user1 user2 →
      calculate_pattern_score_cached db user1 user2 = 0) := by
  refine ⟨compatibility_as_sum user1 user2, ?_, ?_, ?_⟩
  · intro h
    simp only [calculate_pattern_score_cached]
    rw [if_pos h]
  · intro h1 h2
    simp only [calculate_pattern_score_cached]
    rw [if_neg (by omega), if_pos h2]
  · intro h
    simp only [calculate_pattern_score_cached]
    rw [if_neg (by omega), if_neg (by omega)]

/-- Concrete instantiation of the C2 theorem: a pair matching on cuisine
and age group and differing in gender scores 65, and with equal (zero)
participation counts the pattern score is 20. -/
theorem compatibility_and_pattern_formula_witness :
    calculate_compatibility_score_cached exUA exUB = 65 ∧
    activityDiff twoUserDB exUA exUB ≤ 2 ∧
    calculate_pattern_score_cached twoUserDB exUA exUB = 20 := by
  refine ⟨?_, by decide,
    (compatibility_and_pattern_formula twoUserDB exUA exUB).2.1 (by decide)⟩
  rw [(compatibility_and_pattern_formula twoUserDB exUA exUB).1]
  decide

/-- C3: both scoring functions are symmetric in their two user
arguments. -/
theorem scores_symmetric (db : DB) (user1 user2 : DBUser) :
    calculate_compatibility_score_cached user1 user2 =
      calculate_compatibility_score_cached user2 user1 ∧
    calculate_pattern_score_cached db user1 user2 =
      calculate_pattern_score_cached db user2 user1 := by
  constructor
  · have e1 : (if nonemptyTag user1.main_dish_genre ∧ nonemptyTag user2.main_dish_genre ∧
          user1.main_dish_genre = user2.main_dish_genre then 30 else 0)
        = (if nonemptyTag user2.main_dish_genre ∧ nonemptyTag user1.main_dish_genre ∧
          user2.main_dish_genre = user1.main_dish_genre then 30 else 0) :=
      if_congr ⟨fun ⟨a, b, c⟩ => ⟨b, a, c.symm⟩, fun ⟨a, b, c⟩ => ⟨b, a, c.symm⟩⟩ rfl rfl
    have e2 : (if nonemptyTag user1.age_group ∧ nonemptyTag user2.age_group ∧
          user1.age_group = user2.age_group then 20 else 0)
        = (if nonemptyTag user2.age_group ∧ nonemptyTag user1.age_group ∧
          user2.age_group = user1.age_group then 20 else 0) :=
      if_congr ⟨fun ⟨a, b, c⟩ => ⟨b, a, c.symm⟩, fun ⟨a, b, c⟩ => ⟨b, a, c.symm⟩⟩ rfl rfl
    have e3 : (if nonemptyTag user1.gender ∧ nonemptyTag user2.gender ∧
          user1.gender ≠ user2.gender then 15 else 0)
        = (if nonemptyTag user2.gender ∧ nonemptyTag user1.gender ∧
          user2.gender ≠ user1.gender then 15 else 0) :=
      if_congr ⟨fun ⟨a, b, c⟩ => ⟨b, a, fun h => c h.symm⟩,
        fun ⟨a, b, c⟩ => ⟨b, a, fun h => c h.symm⟩⟩ rfl rfl
    rw [compatibility_as_sum user1 user2, compatibility_as_sum user2 user1, e1, e2, e3]
  · have ed : activityDiff db user1 user2 = activityDiff db user2 user1 := by
      simp only [activityDiff]
      omega
    simp only [calculate_pattern_score_cached, ed]

/-- C4 fails as stated: against the single-user directory a first
generate call on day 0 runs to completion (stamping the generation-date
marker) but stores nothing, so a same-day second call fails the
`CACHE_GENERATION_DATE == today and RECOMMENDATION_CACHE` guard and
recomputes instead of being a guaranteed no-op. -/
theorem generate_noop_counterexample :
    (generate_recommendation_cache oneUserDB rand0 0 ⟨[], none⟩).genDate = some 0 ∧
    (generate_recommendation_cache oneUserDB rand0 0 ⟨[], none⟩).cache = [] ∧
    generateFastPath (generate_recommendation_cache oneUserDB rand0 0 ⟨[], none⟩) 0 =
      false := by
  exact ⟨by decide, by decide, by decide⟩

/-- Amended C4: a second same-day generate call is a fast-path no-op —
state returned unchanged, no rebuild — provided the completed first run
left a non-empty cache dict; a completed run that stored no entries does
not arm the guard. -/
theorem generate_noop_amended (db : DB) (rand : Rand) (today : Nat) (st : CacheState)
    (hdate : st.genDate = some today) (hne : st.cache ≠ []) :
    generate_recommendation_cache db rand today st = st ∧
    generateFastPath st today = true := by
  have hfp : generateFastPath st today = true := by
    simp [generateFastPath, hdate, List.isEmpty_iff, hne]
  exact ⟨by simp [generate_recommendation_cache, hfp], hfp⟩

/-- Concrete instantiation of the amended C4 theorem: after a first run
on day 0 over the two-user directory, a same-day second call returns the
state unchanged. -/
theorem generate_noop_amended_witness :
    (buildCache twoUserDB rand0 0).genDate = some 0 ∧
    (buildCache twoUserDB rand0 0).cache ≠ [] ∧
    generate_recommendation_cache twoUserDB rand0 0 (buildCache twoUserDB rand0 0) =
      buildCache twoUserDB rand0 0 := by
  exact ⟨by decide, by decide,
    (generate_noop_amended twoUserDB rand0 0 (buildCache twoUserDB rand0 0)
      (by decide) (by decide)).1⟩

/-- C5 fails as stated: with the previous day's non-empty cache live, a
generate call on day 7 that dies in its first directory query leaves the
globals cleared — the previous generation's entry is gone and a lookup
of its key now misses. -/
theorem generate_failure_counterexample :
    dictGet prevState.cache ("u1", 3) = some [exRec] ∧
    (generate_recommendation_cache_aborted 7 prevState).cache = [] ∧
    dictGet (generate_recommendation_cache_aborted 7 prevState).cache ("u1", 3) =
      none := by
  exact ⟨by decide, by decide, by decide⟩

/-- Amended C5: when a generate call on a new day aborts in its
directory queries, the previous cache has already been discarded: the
globals are left holding an empty cache stamped with the current day, so
lookups see the cleared state rather than the previous generation's. -/
theorem generate_failure_amended (today : Nat) (st : CacheState)
    (h : st.genDate ≠ some today) :
    (generate_recommendation_cache_aborted today st).cache = [] ∧
    (generate_recommendation_cache_aborted today st).genDate = some today := by
  have hfp : generateFastPath st today = false := by
    simp [generateFastPath]
    intro hgd
    exact absurd hgd h
  constructor <;> simp [generate_recommendation_cache_aborted, hfp]

/-- Concrete instantiation of the amended C5 theorem at the day-2 state
and day 7. -/
theorem generate_failure_amended_witness :
    prevState.genDate ≠ some 7 ∧
    (generate_recommendation_cache_aborted 7 prevState).cache = [] := by
  exact ⟨by decide, (generate_failure_amended 7 prevState (by decide)).1⟩

/-- C6 fails as stated: against an empty cache dict, a lookup for a key
with no entry triggers a synchronous full generation — it returns the
freshly generated non-empty list instead of `[]`, and the module globals
differ before and after the call. -/
theorem lookup_counterexample :
    dictGet (⟨[], none⟩ : CacheState).cache ("u1", 0) = none ∧
    (get_smart_recommendations twoUserDB rand0 0 "u1" (some 0) ⟨[], none⟩).1 ≠ [] ∧
    (get_smart_recommendations twoUserDB rand0 0 "u1" (some 0) ⟨[], none⟩).2 ≠
      ⟨[], none⟩ := by
  exact ⟨by decide, by decide, by decide⟩

/-- Amended C6: only when the cache dict is non-empty is a lookup pure:
it leaves the module globals unchanged and returns the stored list for
the key, or `[]` when the key is absent; a lookup against an empty cache
dict first triggers synchronous regeneration. -/
theorem lookup_amended (db : DB) (rand : Rand) (today : Nat) (eid : String) (d : Nat)
    (st : CacheState) (hne : st.cache ≠ []) :
    (get_smart_recommendations db rand today eid (some d) st).2 = st ∧
    (dictGet st.cache (eid, d) = none →
      (get_smart_recommendations db rand today eid (some d) st).1 = []) ∧
    (∀ v, dictGet st.cache (eid, d) = some v →
      (get_smart_recommendations db rand today eid (some d) st).1 = v) := by
  have hemp : st.cache.isEmpty = false := by
    simp [List.isEmpty_iff, hne]
  refine ⟨?_, ?_, ?_⟩
  · simp only [get_smart_recommendations, hemp, Bool.false_eq_true, if_false]
    cases ho : dictGet st.cache (eid, d) <;> simp [ho]
  · intro ho
    simp only [get_smart_recommendations, hemp, Bool.false_eq_true, if_false, ho]
  · intro v ho
    simp only [get_smart_recommendations, hemp, Bool.false_eq_true, if_false, ho]

/-- Concrete instantiation of the amended C6 theorem: on the day-2 state
a lookup for the present key returns its list, a lookup for an absent
key returns `[]`, and neither touches the globals. -/
theorem lookup_amended_witness :
    (get_smart_recommendations twoUserDB rand0 7 "u1" (some 3) prevState).2 =
      prevState ∧
    (get_smart_recommendations twoUserDB rand0 7 "u1" (some 3) prevState).1 =
      [exRec] ∧
    (get_smart_recommendations twoUserDB rand0 7 "u2" (some 3) prevState).1 = [] := by
  exact ⟨(lookup_amended twoUserDB rand0 7 "u1" 3 prevState (by decide)).1,
    (lookup_amended twoUserDB rand0 7 "u1" 3 prevState (by decide)).2.2 [exRec]
      (by decide),
    (lookup_amended twoUserDB rand0 7 "u2" 3 prevState (by decide)).2.1 (by decide)⟩

theorem geg_group_size (db : DB) (today : Nat) (su : List (DBUser × ℚ)) (d : Nat)
    (req : String) :
    ∀ r ∈ generate_efficient_groups db today su d req,
      1 ≤ r.recommended_group.length ∧ r.recommended_group.length ≤ 3 := by
  intro r hr
  rcases geg_groups db today su d req r hr with ⟨g, hne, hle, _, rfl⟩
  simp only [create_recommendation, List.length_map]
  exact ⟨List.length_pos.mpr hne, hle⟩

/-- C7: every recommendation list a generation run stores has length at
most 10, and every stored entry's group has between 1 and 3 members. -/
theorem cache_entry_bounds (db : DB) (rand : Rand) (today : Nat) (k : String × Nat)
    (v : List Recommendation)
    (h : dictGet (buildCache db rand today).cache k = some v) :
    v.length ≤ 10 ∧ ∀ r ∈ v, 1 ≤ r.recommended_group.length ∧
      r.recommended_group.length ≤ 3 := by
  exact buildCache_forall db rand today
    (fun _ v' => v'.length ≤ 10 ∧ ∀ r ∈ v', 1 ≤ r.recommended_group.length ∧
      r.recommended_group.length ≤ 3)
    (fun user _ d' => ⟨geg_length_le db today _ d' user.employee_id,
      geg_group_size db today _ d' user.employee_id⟩)
    (k, v) (dictGet_eq_some_mem h)

/-- Concrete instantiation of the C7 theorem at the two-user run's
entry for key `("u1", 0)`. -/
theorem cache_entry_bounds_witness :
    dictGet (buildCache twoUserDB rand0 0).cache ("u1", 0) =
      some [⟨0, [⟨"u2", "익명", "", "", "처음 만나는 동료"⟩]⟩] ∧
    ([⟨0, [⟨"u2", "익명", "", "", "처음 만나는 동료"⟩]⟩] :
      List Recommendation).length ≤ 10 := by
  have h : dictGet (buildCache twoUserDB rand0 0).cache ("u1", 0) =
      some [⟨0, [⟨"u2", "익명", "", "", "처음 만나는 동료"⟩]⟩] := by decide
  exact ⟨h, (cache_entry_bounds twoUserDB rand0 0 ("u1", 0) _ h).1⟩

/-- C8: no entry a generation run stores under a requester's key lists
the requester among its members. -/
theorem cache_no_self_recommendation (db : DB) (rand : Rand) (today : Nat)
    (k : String × Nat) (v : List Recommendation)
    (h : dictGet (buildCache db rand today).cache k = some v) :
    ∀ r ∈ v, ∀ m ∈ r.recommended_group, m.employee_id ≠ k.1 := by
  refine buildCache_forall db rand today
    (fun k' v' => ∀ r ∈ v', ∀ m ∈ r.recommended_group, m.employee_id ≠ k'.1)
    ?_ (k, v) (dictGet_eq_some_mem h)
  intro user _ d' r hr m hm
  rcases geg_groups db today _ d' user.employee_id r hr with ⟨g, _, _, hsub, rfl⟩
  simp only [create_recommendation] at hm
  rcases List.mem_map.mp hm with ⟨member, hmember, rfl⟩
  rcases List.mem_map.mp (hsub member hmember) with ⟨x, hx, hxm⟩
  have hne := (mem_scoredCandidates hx).2.2
  simpa using hxm ▸ hne

/-- Concrete instantiation of the C8 theorem at the two-user run's
entry for key `("u1", 0)`. -/
theorem cache_no_self_recommendation_witness :
    dictGet (buildCache twoUserDB rand0 0).cache ("u1", 0) =
      some [⟨0, [⟨"u2", "익명", "", "", "처음 만나는 동료"⟩]⟩] ∧
    (⟨"u2", "익명", "", "", "처음 만나는 동료"⟩ : MemberDesc).employee_id ≠ "u1" := by
  have h : dictGet (buildCache twoUserDB rand0 0).cache ("u1", 0) =
      some [⟨0, [⟨"u2", "익명", "", "", "처음 만나는 동료"⟩]⟩] := by decide
  exact ⟨h, cache_no_self_recommendation twoUserDB rand0 0 ("u1", 0) _ h
    _ (List.mem_singleton_self _) _ (List.mem_singleton_self _)⟩

/-- C9 fails as stated, on two concrete runs whose stored member field
is the first-meeting sentinel although the requester and the member
share a party strictly before the target date 7: run (a) — party on day
2 hosted by the requester with the member registered, generation day 0,
so the code's generation-day cutoff excludes it; run (b) — party on day
2 with both users as plain (non-host) members, generation day 7, so the
code's host/member join never matches it. -/
theorem last_dining_counterexample :
    (dictGet (buildCache hostPartyDB rand0 0).cache ("u1", 7) =
        some [⟨7, [⟨"u2", "익명", "", "", "처음 만나는 동료"⟩]⟩] ∧
      sharedPartyBefore hostPartyDB 7 "u1" "u2") ∧
    (dictGet (buildCache memberPartyDB rand0 7).cache ("u1", 7) =
        some [⟨7, [⟨"u2", "익명", "", "", "처음 만나는 동료"⟩]⟩] ∧
      sharedPartyBefore memberPartyDB 7 "u1" "u2") := by
  exact ⟨⟨by decide, by decide⟩, ⟨by decide, by decide⟩⟩

/-- Amended C9: each stored member descriptor's last-dined-together
field is the relative-time rendering of the most recent party strictly
before the generation day (not the target date) in which one of the
requester and the member hosted and the other was a registered member —
parties where both were plain members do not count — and it is the
first-meeting sentinel when no such party exists. -/
theorem last_dining_amended (db : DB) (rand : Rand) (today : Nat) (k : String × Nat)
    (v : List Recommendation)
    (h : dictGet (buildCache db rand today).cache k = some v) :
    ∀ r ∈ v, ∀ m ∈ r.recommended_group,
      m.last_dining_together =
        get_last_dining_together_final db today k.1 m.employee_id ∧
      ((∀ p ∈ db.parties, hostMemberPair db p k.1 m.employee_id = true →
          ¬ p.party_date < today) →
        m.last_dining_together = "처음 만나는 동료") ∧
      (∀ x, maxDate? (sharedHostedPartyDates db today k.1 m.employee_id) = some x →
        m.last_dining_together = formatDaysAgo (today - x) ∧
        (∃ p ∈ db.parties, hostMemberPair db p k.1 m.employee_id = true ∧
          p.party_date = x ∧ x < today) ∧
        (∀ p ∈ db.parties, hostMemberPair db p k.1 m.employee_id = true →
          p.party_date < today → p.party_date ≤ x)) := by
  have hfield : ∀ r ∈ v, ∀ m ∈ r.recommended_group,
      m.last_dining_together =
        get_last_dining_together_final db today k.1 m.employee_id := by
    refine buildCache_forall db rand today
      (fun k' v' => ∀ r ∈ v', ∀ m ∈ r.recommended_group,
        m.last_dining_together =
          get_last_dining_together_final db today k'.1 m.employee_id)
      ?_ (k, v) (dictGet_eq_some_mem h)
    intro user _ d' r hr m hm
    rcases geg_groups db today _ d' user.employee_id r hr with ⟨g, _, _, _, rfl⟩
    simp only [create_recommendation] at hm
    rcases List.mem_map.mp hm with ⟨member, _, rfl⟩
    rfl
  intro r hr m hm
  have h1 := hfield r hr m hm
  have hspec := get_last_dining_together_final_spec db today k.1 m.employee_id
  refine ⟨h1, fun hno => h1.trans (hspec.1 hno), fun x hx => ?_⟩
  have h2 := hspec.2 x hx
  exact ⟨h1.trans h2.1, h2.2.1, h2.2.2⟩

/-- Concrete instantiation of the amended C9 theorem: with generation
day 7 and the day-2 hosted party, the stored field for the key
`("u1", 7)` is the relative rendering "5일 전" of that party. -/
theorem last_dining_amended_witness :
    dictGet (buildCache hostPartyDB rand0 7).cache ("u1", 7) =
      some [⟨7, [⟨"u2", "익명", "", "", "5일 전"⟩]⟩] ∧
    (⟨"u2", "익명", "", "", "5일 전"⟩ : MemberDesc).last_dining_together =
      get_last_dining_together_final hostPartyDB 7 "u1" "u2" := by
  have h : dictGet (buildCache hostPartyDB rand0 7).cache ("u1", 7) =
      some [⟨7, [⟨"u2", "익명", "", "", "5일 전"⟩]⟩] := by decide
  exact ⟨h, (last_dining_amended hostPartyDB rand0 7 ("u1", 7) _ h
    _ (List.mem_singleton_self _) _ (List.mem_singleton_self _)).1⟩

/-- C10: on a non-empty, descending-score-sorted candidate list the
assembler returns a non-empty list whose final entry is the
single-member group holding the list head — the candidate of maximal
total score — and whenever some other user is available for a
(requester, window-date) pair, the run stores a non-empty list for that
key. -/
theorem assembler_head_single (db : DB) (rand : Rand) (today : Nat)
    (su : List (DBUser × ℚ)) (d : Nat) (req : String) (h : su ≠ [])
    (hsorted : List.Sorted (fun x y : DBUser × ℚ => x.2 ≥ y.2) su) :
    generate_efficient_groups db today su d req ≠ [] ∧
    (generate_efficient_groups db today su d req).getLast? =
      some (create_recommendation db today [(su.getD 0 dummyScored).1] d req) ∧
    (∀ x ∈ su, x.2 ≤ (su.getD 0 dummyScored).2) ∧
    (∀ user ∈ db.users, ∀ d' ∈ windowDays today,
      user.employee_id ∈ get_available_users_for_date db d' →
      (∃ other ∈ db.users, other.employee_id ∈ get_available_users_for_date db d' ∧
        other.employee_id ≠ user.employee_id) →
      ∃ v, dictGet (buildCache db rand today).cache (user.employee_id, d') =
        some v ∧ v ≠ []) := by
  have hl := geg_last db today su d req h
  refine ⟨hl.1, hl.2, ?_, ?_⟩
  · cases su with
    | nil => exact absurd rfl h
    | cons a tl =>
        intro x hx
        rcases List.mem_cons.mp hx with rfl | hx'
        · exact le_rfl
        · exact List.rel_of_sorted_cons hsorted x hx'
  · intro user hu d' hd' havail hother
    exact buildCache_has_key db rand today d' user hu hd' havail hother

/-- Concrete instantiation of the C10 theorem on the one-candidate
scored list of the two-user run. -/
theorem assembler_head_single_witness :
    generate_efficient_groups twoUserDB 0 [(exU2, 20)] 0 "u1" ≠ [] ∧
    (generate_efficient_groups twoUserDB 0 [(exU2, 20)] 0 "u1").getLast? =
      some (create_recommendation twoUserDB 0 [exU2] 0 "u1") ∧
    (∃ v, dictGet (buildCache twoUserDB rand0 0).cache ("u1", 0) = some v ∧
      v ≠ []) := by
  have h := assembler_head_single twoUserDB rand0 0 [(exU2, 20)] 0 "u1"
    (by decide) (List.sorted_singleton _)
  exact ⟨h.1, h.2.1, h.2.2.2 exU1 (by decide) 0 (by decide) (by decide)
    ⟨exU2, by decide, by decide, by decide⟩⟩
